import Mathlib

/-!
Shallow embedding of the time-bucketing engine of `kran_kalkulator_app.py`
(KranKalkulator). Instants and durations are modelled as integer counts of
seconds (all values produced by the program are whole minutes; `timedelta`
arithmetic is exact integer arithmetic at this granularity). Dates are
modelled by their proleptic-Gregorian ordinal (Python `date.toordinal`,
ordinal 1 = 0001-01-01, a Monday), so `weekday = (ordinal + 6) % 7` with
Monday = 0. The external `holidays` library (`NO_HOLIDAYS`) is modelled as
an abstract read-only membership predicate, and the external
`pandas.to_datetime` parser as an oracle outcome, since neither is part of
this repository's source.
-/

namespace Kran

/-- Python `datetime.time` value: hour and minute fields.
(`_to_time` never produces seconds; `dt.datetime.time()` values with seconds
do not occur in any claim, so seconds are omitted.) -/
structure Time where
  hour : Nat
  minute : Nat
  deriving DecidableEq

/-- Seconds-of-day of a clock time, as used by `datetime.combine`. -/
def timeSec (t : Time) : Int := ((3600 * t.hour + 60 * t.minute : Nat) : Int)

/-- Python `str.strip` (ASCII whitespace model): drop leading and trailing
whitespace characters. -/
def pyStrip (s : List Char) : List Char :=
  ((s.dropWhile Char.isWhitespace).reverse.dropWhile Char.isWhitespace).reverse

/-- Python `str.isdigit` (ASCII model): nonempty and all characters digits. -/
def pyIsDigit (s : List Char) : Bool :=
  !s.isEmpty && s.all Char.isDigit

/-- Decimal value of a digit string (the value Python `int` returns on it). -/
def digitsVal (s : List Char) : Nat :=
  s.foldl (fun a c => 10 * a + (c.toNat - 48)) 0

/-- Python `int(str)`: strips whitespace, then an optional sign followed by a
nonempty run of digits; any other shape raises (modelled as `none`).
(Underscore digit separators accepted by CPython are not modelled; no input
in this development contains them.) -/
def pyInt (s : List Char) : Option Int :=
  let t := pyStrip s
  if t.head? = some '+' then
    (if pyIsDigit t.tail then some ((digitsVal t.tail : Nat) : Int) else none)
  else if t.head? = some '-' then
    (if pyIsDigit t.tail then some (-((digitsVal t.tail : Nat) : Int)) else none)
  else
    (if pyIsDigit t then some ((digitsVal t : Nat) : Int) else none)

/-- `s.replace(".", ":").replace(",", ":")` from `_to_time` / `_to_timedelta`. -/
def replaceSep (s : List Char) : List Char :=
  s.map (fun c => if c = '.' then ':' else if c = ',' then ':' else c)

/-- Python `datetime.time(h, m)` constructor: raises (modelled `none`) outside
0 ≤ h ≤ 23, 0 ≤ m ≤ 59. -/
def mkTime (h m : Int) : Option Time :=
  if 0 ≤ h ∧ h ≤ 23 ∧ 0 ≤ m ∧ m ≤ 59 then some ⟨h.toNat, m.toNat⟩ else none

/-- String branch of `_to_time` (lines 121-149 of the source): strip, replace
separators, then the colon branch (exactly-two-part unpack wrapped in
try/except) or the digits branch with length cases and range check;
fall-through returns `None`. -/
def toTimeStr (s0 : List Char) : Option Time :=
  let s := pyStrip s0
  if s.isEmpty then none
  else
    let s := replaceSep s
    if s.contains ':' then
      -- hh, mm = s.split(":") succeeds only with exactly two parts
      match s.splitOn ':' with
      | [hh, mm] =>
        (match pyInt hh, pyInt mm with
         | some h, some m => mkTime h m
         | _, _ => none)
      | _ => none
    else if pyIsDigit s then
      if s.length = 4 then
        (match pyInt (s.take 2), pyInt (s.drop 2) with
         | some h, some m =>
           if 0 ≤ h ∧ h ≤ 23 ∧ 0 ≤ m ∧ m ≤ 59 then some ⟨h.toNat, m.toNat⟩ else none
         | _, _ => none)
      else if s.length = 3 then
        (match pyInt (s.take 1), pyInt (s.drop 1) with
         | some h, some m =>
           if 0 ≤ h ∧ h ≤ 23 ∧ 0 ≤ m ∧ m ≤ 59 then some ⟨h.toNat, m.toNat⟩ else none
         | _, _ => none)
      else if s.length ≤ 2 then
        (match pyInt s with
         | some h =>
           if 0 ≤ h ∧ h ≤ 23 then some ⟨h.toNat, 0⟩ else none
         | none => none)
      else none
    else none

/-- Raw value arriving in a Start/Slutt cell: `None`, float NaN, a native
`time` or `datetime`, or anything else via its `str()` representation. -/
inductive TimeField where
  | absent
  | nanVal : TimeField
  | timeVal (t : Time)
  | datetimeVal (d : Int) (t : Time)
  | str (s : String)

/-- `_to_time` (source lines 105-149). -/
def _to_time : TimeField → Option Time
  | .absent => none
  | .nanVal => none
  | .timeVal t => some t
  | .datetimeVal _ t => some t
  | .str s => toTimeStr s.data

/-- String branch of `_to_timedelta` (lines 164-189): same shape as the time
parser but every failure returns the zero duration, digit strings of length
other than 3 or 4 are read as minutes, and no range check is performed.
Result in seconds. -/
def toTimedeltaStr (s0 : List Char) : Int :=
  let s := pyStrip s0
  if s.isEmpty then 0
  else
    let s := replaceSep s
    if s.contains ':' then
      match s.splitOn ':' with
      | [hh, mm] =>
        (match pyInt hh, pyInt mm with
         | some h, some m => 3600 * h + 60 * m
         | _, _ => 0)
      | _ => 0
    else if pyIsDigit s then
      if s.length = 4 then
        (match pyInt (s.take 2), pyInt (s.drop 2) with
         | some h, some m => 3600 * h + 60 * m
         | _, _ => 0)
      else if s.length = 3 then
        (match pyInt (s.take 1), pyInt (s.drop 1) with
         | some h, some m => 3600 * h + 60 * m
         | _, _ => 0)
      else
        (match pyInt s with
         | some m => 60 * m
         | none => 0)
    else 0

/-- Raw value arriving in a Spisetid/Ventetid cell. -/
inductive TdField where
  | absent
  | nanVal : TdField
  | td (seconds : Int)
  | str (s : String)

/-- `_to_timedelta` (source lines 151-189). A native `timedelta` is returned
unchanged; `None`/NaN and every parse failure yield the zero duration. -/
def _to_timedelta : TdField → Int
  | .absent => 0
  | .nanVal => 0
  | .td sec => sec
  | .str s => toTimedeltaStr s.data

/-- Raw value arriving in a Dato cell. A plain `date` passes through; a
`datetime` (and anything else) goes through `pandas.to_datetime(x).date()`,
an external parser modelled by its outcome. -/
inductive DateField where
  | absent
  | nanVal : DateField
  | date (ordinal : Int)
  | datetimeVal (ordinal : Int) (t : Time)
  | other (parsed : Option Int)

/-- `_to_date` (source lines 95-103). -/
def _to_date : DateField → Option Int
  | .absent => none
  | .nanVal => none
  | .date d => some d
  | .datetimeVal d _ => some d
  | .other r => r

/-- The `Rules` dataclass (source lines 78-83). -/
structure Rules where
  day_start : Time
  day_end : Time
  ot50_end : Time
  night_end : Time
  deriving DecidableEq

/-- `DEFAULT_RULES` (source lines 85-90). -/
def DEFAULT_RULES : Rules :=
  { day_start := ⟨7, 30⟩, day_end := ⟨15, 0⟩, ot50_end := ⟨21, 0⟩, night_end := ⟨7, 30⟩ }

/-- `datetime.combine(d, t)` as seconds since the epoch of ordinal 0. -/
def combine (d : Int) (t : Time) : Int := 86400 * d + timeSec t

/-- The `NO_HOLIDAYS` calendar (source line 67): the external `holidays`
library, modelled as an abstract membership predicate on date ordinals. -/
structure HolidayCal where
  isHol : Int → Bool

/-- `is_holiday` (source lines 69-70). -/
def is_holiday (cal : HolidayCal) (d : Int) : Bool := cal.isHol d

/-- `is_weekend` (source lines 72-73): Python `weekday() >= 5`
(ordinal 1 is a Monday, so `weekday = (ordinal + 6) % 7`). -/
def is_weekend (d : Int) : Bool := (d + 6) % 7 ≥ 5

/-- The local `overlap` helper of `split_work_by_windows` (lines 216-219). -/
def overlap (a1 a2 b1 b2 : Int) : Int := max 0 (min a2 b2 - max a1 b1)

/-- The dict returned by `split_work_by_windows`, read back through
`buckets.get(key, timedelta(0))` in `compute_row`: a missing key is the zero
duration, so the dict is modelled as a total record with zero defaults. -/
structure Buckets where
  ord : Int := 0
  ot50 : Int := 0
  ot100 : Int := 0
  weekend : Int := 0
  holiday : Int := 0
  deriving DecidableEq

/-- `split_work_by_windows` (source lines 197-228). -/
def split_work_by_windows (cal : HolidayCal) (start_dt end_dt : Int)
    (rules : Rules) (day : Int) : Buckets :=
  if end_dt ≤ start_dt then {}
  else
    let total := end_dt - start_dt
    if is_holiday cal day then { holiday := total }
    else if is_weekend day then { weekend := total }
    else
      let d0 := day
      let ord_start := combine d0 rules.day_start
      let ord_end := combine d0 rules.day_end
      let ot50_end := combine d0 rules.ot50_end
      let night_start := ot50_end
      let night_end := combine (d0 + 1) rules.night_end
      { ord := overlap start_dt end_dt ord_start ord_end
        ot50 := overlap start_dt end_dt ord_end ot50_end
        ot100 := overlap start_dt end_dt night_start night_end
                 + overlap start_dt end_dt (combine d0 ⟨0, 0⟩) ord_start }

/-- The successful result dict of `compute_row` (lines 252-262), with
durations kept in seconds; the `hours()` call (round to 2 decimals) is the
presentation boundary and is not part of the claims. -/
structure RowResult where
  total : Int
  ord : Int
  ot50 : Int
  ot100 : Int
  weekend : Int
  holiday : Int
  meal : Int
  wait : Int
  billed : Int
  deriving DecidableEq

/-- A `compute_row` return value: either the error dict or the result dict. -/
inductive RowOut where
  | error (msg : String)
  | ok (r : RowResult)
  deriving DecidableEq

/-- Whether an output row carries the error marker. -/
def RowOut.isErr : RowOut → Bool
  | .error _ => true
  | .ok _ => false

/-- Total duration of an output row, zero on error rows. -/
def RowOut.getTotal : RowOut → Int
  | .error _ => 0
  | .ok r => r.total

/-- `compute_row` (source lines 230-262). `not d or not s or not e` is the
`None` test (date and time objects are always truthy in Python ≥ 3.5). -/
def compute_row (cal : HolidayCal) (date_val : DateField) (start_t end_t : TimeField)
    (meal_td wait_td : TdField) (rules : Rules) : RowOut :=
  let meal := _to_timedelta meal_td
  let wait := _to_timedelta wait_td
  match _to_date date_val, _to_time start_t, _to_time end_t with
  | some d, some s, some e =>
    let start_dt := combine d s
    let end_dt0 := combine d e
    -- if end_dt <= start_dt: end_dt += timedelta(days=1)  (over midnatt)
    let end_dt := if end_dt0 ≤ start_dt then end_dt0 + 86400 else end_dt0
    let total_td := end_dt - start_dt
    let billed0 := total_td - meal - wait
    let billed_td := if billed0 < 0 then 0 else billed0
    let buckets := split_work_by_windows cal start_dt end_dt rules d
    .ok { total := total_td
          ord := buckets.ord
          ot50 := buckets.ot50
          ot100 := buckets.ot100
          weekend := buckets.weekend
          holiday := buckets.holiday
          meal := meal
          wait := wait
          billed := billed_td }
  | _, _, _ => .error "Dato, start og slutt må fylles inn."

/-- One raw row of the data editor, as read at source lines 352-360. -/
structure RawRow where
  dato : DateField
  start : TimeField
  slutt : TimeField
  spisetid : TdField
  ventetid : TdField

/-- The per-row outputs of the batch loop (source lines 349-379): every row
is passed through `compute_row`. -/
def out_rows (cal : HolidayCal) (rules : Rules) (rows : List RawRow) : List RowOut :=
  rows.map fun r => compute_row cal r.dato r.start r.slutt r.spisetid r.ventetid rules

/-- Fieldwise sum of two result records. -/
def addRes (a b : RowResult) : RowResult :=
  { total := a.total + b.total, ord := a.ord + b.ord, ot50 := a.ot50 + b.ot50
    ot100 := a.ot100 + b.ot100, weekend := a.weekend + b.weekend
    holiday := a.holiday + b.holiday, meal := a.meal + b.meal
    wait := a.wait + b.wait, billed := a.billed + b.billed }

/-- The all-zero result record. -/
def zeroRes : RowResult := ⟨0, 0, 0, 0, 0, 0, 0, 0, 0⟩

/-- The column sums of `out_df` (source lines 397-409): in the DataFrame an
error row has no numeric columns (NaN), and `sum` skips NaN, so error rows
contribute nothing to every total. -/
def totals : List RowOut → RowResult
  | [] => zeroRes
  | .error _ :: rest => totals rest
  | .ok r :: rest => addRes r (totals rest)

/-- The error counter of the batch loop (source lines 350, 371-372). -/
def errorsCount (outs : List RowOut) : Nat := outs.countP RowOut.isErr

/-! Helper lemmas about digit strings, used by the parser theorems. -/

theorem not_ws_of_isDigit {c : Char} (h : c.isDigit = true) : c.isWhitespace = false := by
  by_cases h1 : c = ' '
  · subst h1; exact absurd h (by decide)
  by_cases h2 : c = '\t'
  · subst h2; exact absurd h (by decide)
  by_cases h3 : c = '\r'
  · subst h3; exact absurd h (by decide)
  by_cases h4 : c = '\n'
  · subst h4; exact absurd h (by decide)
  simp [Char.isWhitespace, h1, h2, h3, h4]

theorem ne_dot_of_isDigit {c : Char} (h : c.isDigit = true) : c ≠ '.' := by
  intro hc; subst hc; exact absurd h (by decide)

theorem ne_comma_of_isDigit {c : Char} (h : c.isDigit = true) : c ≠ ',' := by
  intro hc; subst hc; exact absurd h (by decide)

theorem ne_colon_of_isDigit {c : Char} (h : c.isDigit = true) : c ≠ ':' := by
  intro hc; subst hc; exact absurd h (by decide)

theorem ne_plus_of_isDigit {c : Char} (h : c.isDigit = true) : c ≠ '+' := by
  intro hc; subst hc; exact absurd h (by decide)

theorem ne_minus_of_isDigit {c : Char} (h : c.isDigit = true) : c ≠ '-' := by
  intro hc; subst hc; exact absurd h (by decide)

theorem dropWhile_ws_of_digits {s : List Char} (h : ∀ c ∈ s, c.isDigit = true) :
    s.dropWhile Char.isWhitespace = s := by
  cases s with
  | nil => rfl
  | cons c cs =>
    rw [List.dropWhile_cons, not_ws_of_isDigit (h c (List.mem_cons_self c cs))]
    simp

theorem pyStrip_digits {s : List Char} (h : ∀ c ∈ s, c.isDigit = true) :
    pyStrip s = s := by
  unfold pyStrip
  rw [dropWhile_ws_of_digits h,
      dropWhile_ws_of_digits (fun c hc => h c (List.mem_reverse.mp hc)),
      List.reverse_reverse]

theorem replaceSep_digits : ∀ {s : List Char}, (∀ c ∈ s, c.isDigit = true) →
    replaceSep s = s := by
  intro s
  induction s with
  | nil => intro _; rfl
  | cons c cs ih =>
    intro h
    have hc := h c (List.mem_cons_self c cs)
    simp only [replaceSep, List.map_cons] at ih ⊢
    rw [if_neg (ne_dot_of_isDigit hc), if_neg (ne_comma_of_isDigit hc),
        ih fun d hd => h d (List.mem_cons_of_mem c hd)]

theorem contains_colon_of_digits : ∀ {s : List Char}, (∀ c ∈ s, c.isDigit = true) →
    s.contains ':' = false := by
  intro s
  induction s with
  | nil => intro _; rfl
  | cons c cs ih =>
    intro h
    have hc := ne_colon_of_isDigit (h c (List.mem_cons_self c cs))
    simp only [List.contains_cons, Bool.or_eq_false_iff]
    exact ⟨by simp [Ne.symm hc], ih fun d hd => h d (List.mem_cons_of_mem c hd)⟩

theorem pyIsDigit_iff {s : List Char} :
    pyIsDigit s = true ↔ s ≠ [] ∧ ∀ c ∈ s, c.isDigit = true := by
  simp [pyIsDigit, List.isEmpty_iff, List.all_eq_true]

theorem pyInt_digits {s : List Char} (h : pyIsDigit s = true) :
    pyInt s = some ((digitsVal s : Nat) : Int) := by
  obtain ⟨hne, hdig⟩ := pyIsDigit_iff.mp h
  unfold pyInt
  rw [pyStrip_digits hdig]
  cases s with
  | nil => exact absurd rfl hne
  | cons c cs =>
    have hc := hdig c (List.mem_cons_self c cs)
    rw [if_neg (by simp [ne_plus_of_isDigit hc]), if_neg (by simp [ne_minus_of_isDigit hc]),
        if_pos h]

/-! Claim theorems. -/

/-- C9: the clock-time normalizer maps "0730", "07:30", "7.30" and "7,30"
to the same clock time, 7 hours 30 minutes. -/
theorem C9_equivalent_notations :
    _to_time (.str "0730") = some ⟨7, 30⟩ ∧
    _to_time (.str "07:30") = some ⟨7, 30⟩ ∧
    _to_time (.str "7.30") = some ⟨7, 30⟩ ∧
    _to_time (.str "7,30") = some ⟨7, 30⟩ := by decide

/-- C5: for every successfully evaluated row, the billable duration equals
max(0, total − meal − wait), hence is never negative, regardless of the
magnitude of the meal and wait durations. -/
theorem C5_billable_clamped (cal : HolidayCal) (dv : DateField) (sv ev : TimeField)
    (mv wv : TdField) (ru : Rules) (r : RowResult)
    (h : compute_row cal dv sv ev mv wv ru = .ok r) :
    r.billed = max 0 (r.total - r.meal - r.wait) ∧ 0 ≤ r.billed := by
  cases hd : _to_date dv <;> cases hs : _to_time sv <;> cases he : _to_time ev <;>
    simp only [compute_row, hd, hs, he] at h <;> cases h
  refine ⟨?_, ?_⟩ <;> (dsimp only; split_ifs <;> omega)

/-- C5 witness: a concrete row (Monday ordinal 1, 07:30-15:00, one hour of
meal time) evaluated by the engine, with the theorem's clamping consequence
at that row. -/
theorem C5_witness :
    compute_row ⟨fun _ => false⟩ (.date 1) (.str "0730") (.str "1500")
        (.str "0100") (.str "0000") DEFAULT_RULES =
      .ok ⟨27000, 27000, 0, 0, 0, 0, 3600, 0, 23400⟩ ∧
    ((23400 : Int) = max 0 (27000 - 3600 - 0) ∧ (0 : Int) ≤ 23400) :=
  ⟨by decide,
   C5_billable_clamped ⟨fun _ => false⟩ (.date 1) (.str "0730") (.str "1500")
     (.str "0100") (.str "0000") DEFAULT_RULES ⟨27000, 27000, 0, 0, 0, 0, 3600, 0, 23400⟩
     (by decide)⟩

/-- C3: for every session on a holiday or weekend date, the whole elapsed
span goes into the single overtime_holiday (resp. overtime_weekend) bucket,
with holiday taking precedence over weekend, and the ordinary, evening and
night buckets all zero. -/
theorem C3_weekend_holiday_exclusive (cal : HolidayCal) (ru : Rules)
    (day start_dt end_dt : Int) (h : start_dt < end_dt) :
    (is_holiday cal day = true →
      split_work_by_windows cal start_dt end_dt ru day =
        { holiday := end_dt - start_dt }) ∧
    (is_holiday cal day = false → is_weekend day = true →
      split_work_by_windows cal start_dt end_dt ru day =
        { weekend := end_dt - start_dt }) := by
  unfold split_work_by_windows
  rw [if_neg (not_le.mpr h)]
  constructor
  · intro hh; rw [if_pos hh]
  · intro hh hw; rw [if_neg (by simp [hh]), if_pos hw]

/-- C3 witness: ordinal 6 is a Saturday; with a calendar that also marks it
a holiday the whole hour lands in the holiday bucket, and with an empty
calendar it lands in the weekend bucket. -/
theorem C3_witness :
    ((0 : Int) < 3600 ∧
      split_work_by_windows ⟨fun _ => true⟩ 0 3600 DEFAULT_RULES 6 =
        { holiday := 3600 }) ∧
    split_work_by_windows ⟨fun _ => false⟩ 0 3600 DEFAULT_RULES 6 =
      { weekend := 3600 } :=
  ⟨⟨by decide,
    (C3_weekend_holiday_exclusive ⟨fun _ => true⟩ DEFAULT_RULES 6 0 3600 (by decide)).1
      (by decide)⟩,
   (C3_weekend_holiday_exclusive ⟨fun _ => false⟩ DEFAULT_RULES 6 0 3600 (by decide)).2
     (by decide) (by decide)⟩

/-- C2 counterexample: a row with start == end == 08:00 on an ordinary
Monday is not a zero-duration row; the rollover makes it a full 24-hour
session. -/
theorem C2_counterexample :
    (compute_row ⟨fun _ => false⟩ (.date 1) (.timeVal ⟨8, 0⟩) (.timeVal ⟨8, 0⟩)
        .absent .absent DEFAULT_RULES).isErr = false ∧
    (compute_row ⟨fun _ => false⟩ (.date 1) (.timeVal ⟨8, 0⟩) (.timeVal ⟨8, 0⟩)
        .absent .absent DEFAULT_RULES).getTotal = 86400 := by decide

/-- C2 amended: a row whose start clock-time equals its end clock-time is
not degenerate: the midnight rollover applies (end ≤ start), the session
spans exactly 24 hours, and no error is reported. The partitioner's
all-zero-buckets branch for end ≤ start is unreachable from row
evaluation. -/
theorem C2_equal_times_full_day (cal : HolidayCal) (dv : DateField) (sv ev : TimeField)
    (mv wv : TdField) (ru : Rules) (d : Int) (t : Time)
    (hd : _to_date dv = some d) (hs : _to_time sv = some t) (he : _to_time ev = some t) :
    ∃ r, compute_row cal dv sv ev mv wv ru = .ok r ∧ r.total = 86400 := by
  simp only [compute_row, hd, hs, he]
  refine ⟨_, rfl, ?_⟩
  simp only [le_refl, if_pos]
  omega

/-- C1 counterexample: an ordinary Monday row from 23:00 to 22:00 rolls the
end over midnight to Tuesday 22:00; only the first 8.5 hours (up to the
Tuesday 07:30 night-end boundary) land in any bucket, so the buckets sum to
30600 seconds while the elapsed span is 82800 seconds. -/
theorem C1_counterexample :
    compute_row ⟨fun _ => false⟩ (.date 1) (.str "2300") (.str "2200")
        .absent .absent DEFAULT_RULES =
      .ok ⟨82800, 0, 0, 30600, 0, 0, 0, 0, 82800⟩ ∧
    (0 + 0 + 30600 : Int) ≠ 82800 := by decide

/-- C1 amended: on an ordinary day the buckets are non-negative, and they
sum exactly to the elapsed span provided the session lies inside the anchor
day's covered window [midnight, night-end boundary of the following day]
(sessions rolled over midnight whose end clock-time is past night-end leak
the remainder) and the configured boundaries are ordered
(day_start ≤ day_end ≤ ot50_end). -/
theorem C1_partition_conservation (cal : HolidayCal) (ru : Rules)
    (day start_dt end_dt : Int)
    (hhol : is_holiday cal day = false) (hwk : is_weekend day = false)
    (hlo : combine day ⟨0, 0⟩ ≤ start_dt) (hse : start_dt < end_dt)
    (hhi : end_dt ≤ combine (day + 1) ru.night_end)
    (h1 : timeSec ru.day_start ≤ timeSec ru.day_end)
    (h2 : timeSec ru.day_end ≤ timeSec ru.ot50_end)
    (h3 : timeSec ru.ot50_end ≤ 86400) :
    0 ≤ (split_work_by_windows cal start_dt end_dt ru day).ord ∧
    0 ≤ (split_work_by_windows cal start_dt end_dt ru day).ot50 ∧
    0 ≤ (split_work_by_windows cal start_dt end_dt ru day).ot100 ∧
    (split_work_by_windows cal start_dt end_dt ru day).ord
      + (split_work_by_windows cal start_dt end_dt ru day).ot50
      + (split_work_by_windows cal start_dt end_dt ru day).ot100
      = end_dt - start_dt := by
  unfold split_work_by_windows
  rw [if_neg (not_le.mpr hse), if_neg (by simp [hhol]), if_neg (by simp [hwk])]
  dsimp only
  simp only [overlap, combine, timeSec] at hlo hhi h1 h2 h3 ⊢
  omega

/-- C1 witness: the amended conservation at a concrete ordinary Monday
session 07:30-15:00 under the default rules. -/
theorem C1_witness :
    is_holiday ⟨fun _ => false⟩ 1 = false ∧ is_weekend 1 = false ∧
    combine 1 ⟨0, 0⟩ ≤ 113400 ∧ (113400 : Int) < 140400 ∧
    (140400 : Int) ≤ combine 2 DEFAULT_RULES.night_end ∧
    (split_work_by_windows ⟨fun _ => false⟩ 113400 140400 DEFAULT_RULES 1).ord
      + (split_work_by_windows ⟨fun _ => false⟩ 113400 140400 DEFAULT_RULES 1).ot50
      + (split_work_by_windows ⟨fun _ => false⟩ 113400 140400 DEFAULT_RULES 1).ot100
      = 140400 - 113400 :=
  ⟨rfl, rfl, by decide, by decide, by decide,
   (C1_partition_conservation ⟨fun _ => false⟩ DEFAULT_RULES 1 113400 140400
     rfl rfl (by decide) (by decide) (by decide) (by decide) (by decide) (by decide)).2.2.2⟩

/-- C2 witness: the amended statement at the concrete 08:00-08:00 Monday
row. -/
theorem C2_witness :
    _to_date (.date 1) = some 1 ∧
    _to_time (.timeVal ⟨8, 0⟩) = some ⟨8, 0⟩ ∧
    ∃ r, compute_row ⟨fun _ => false⟩ (.date 1) (.timeVal ⟨8, 0⟩) (.timeVal ⟨8, 0⟩)
        .absent .absent DEFAULT_RULES = .ok r ∧ r.total = 86400 :=
  ⟨rfl, rfl,
   C2_equal_times_full_day ⟨fun _ => false⟩ (.date 1) (.timeVal ⟨8, 0⟩)
     (.timeVal ⟨8, 0⟩) .absent .absent DEFAULT_RULES 1 ⟨8, 0⟩ rfl rfl rfl⟩

/-- Sub-list of a digit string used at a take/drop split is itself a
nonempty digit string when the length bound makes it nonempty. -/
theorem pyIsDigit_take {s : List Char} (h : ∀ c ∈ s, c.isDigit = true)
    (n : Nat) (hn : 0 < n) (hl : n ≤ s.length) : pyIsDigit (s.take n) = true := by
  refine pyIsDigit_iff.mpr ⟨?_, fun c hc => h c (List.mem_of_mem_take hc)⟩
  intro hnil
  have hlen := congrArg List.length hnil
  rw [List.length_take] at hlen
  simp only [List.length_nil] at hlen
  omega

theorem pyIsDigit_drop {s : List Char} (h : ∀ c ∈ s, c.isDigit = true)
    (n : Nat) (hl : n < s.length) : pyIsDigit (s.drop n) = true := by
  refine pyIsDigit_iff.mpr ⟨?_, fun c hc => h c (List.mem_of_mem_drop hc)⟩
  intro hnil
  have hlen := congrArg List.length hnil
  rw [List.length_drop] at hlen
  simp only [List.length_nil] at hlen
  omega

/-- C10: the duration normalizer performs no minute-range validation: a
digits-only string of length 3 (resp. 4) whose minute part exceeds 59 still
yields hour·3600 + minutes·60 seconds (excess minutes carry into hours),
while the clock-time normalizer rejects the same string as absent. -/
theorem C10_duration_no_minute_validation (s : String)
    (hdig : pyIsDigit s.data = true) :
    (s.data.length = 3 → 59 < digitsVal (s.data.drop 1) →
      _to_time (.str s) = none ∧
      _to_timedelta (.str s) =
        3600 * (digitsVal (s.data.take 1) : Int) + 60 * (digitsVal (s.data.drop 1) : Int)) ∧
    (s.data.length = 4 → 59 < digitsVal (s.data.drop 2) →
      _to_time (.str s) = none ∧
      _to_timedelta (.str s) =
        3600 * (digitsVal (s.data.take 2) : Int) + 60 * (digitsVal (s.data.drop 2) : Int)) := by
  obtain ⟨hne, hd⟩ := pyIsDigit_iff.mp hdig
  have hE : s.data.isEmpty = false := by simpa [List.isEmpty_iff] using hne
  constructor
  · intro h3 hm
    have htake := pyIsDigit_take hd 1 (by omega) (by omega)
    have hdrop := pyIsDigit_drop hd 1 (by omega)
    have hn4 : ¬ s.data.length = 4 := by omega
    constructor
    · simp only [_to_time, toTimeStr, pyStrip_digits hd, hE, Bool.false_eq_true,
        if_false, replaceSep_digits hd, contains_colon_of_digits hd, hdig, if_true,
        pyInt_digits htake, pyInt_digits hdrop]
      rw [if_neg hn4, if_pos h3]
      split
      · exfalso; omega
      · rfl
    · simp only [_to_timedelta, toTimedeltaStr, pyStrip_digits hd, hE, Bool.false_eq_true,
        if_false, replaceSep_digits hd, contains_colon_of_digits hd, hdig, if_true,
        pyInt_digits htake, pyInt_digits hdrop]
      rw [if_neg hn4, if_pos h3]
  · intro h4 hm
    have htake := pyIsDigit_take hd 2 (by omega) (by omega)
    have hdrop := pyIsDigit_drop hd 2 (by omega)
    constructor
    · simp only [_to_time, toTimeStr, pyStrip_digits hd, hE, Bool.false_eq_true,
        if_false, replaceSep_digits hd, contains_colon_of_digits hd, hdig, if_true,
        pyInt_digits htake, pyInt_digits hdrop]
      rw [if_pos h4]
      split
      · exfalso; omega
      · rfl
    · simp only [_to_timedelta, toTimedeltaStr, pyStrip_digits hd, hE, Bool.false_eq_true,
        if_false, replaceSep_digits hd, contains_colon_of_digits hd, hdig, if_true,
        pyInt_digits htake, pyInt_digits hdrop]
      rw [if_pos h4]

/-- C10 witness: the string "190" is read as 1 h 90 min = 2 h 30 min = 9000 s
by the duration normalizer and rejected by the clock-time normalizer. -/
theorem C10_witness :
    pyIsDigit ("190" : String).data = true ∧
    _to_time (.str "190") = none ∧ _to_timedelta (.str "190") = 9000 := by
  have h := (C10_duration_no_minute_validation "190" (by decide)).1 (by decide) (by decide)
  exact ⟨by decide, h.1, by rw [h.2]; decide⟩

/-- C6 counterexample: a native negative timedelta passes through the
duration normalizer unchanged — it is not clamped to zero. -/
theorem C6_counterexample :
    _to_timedelta (.td (-3600)) = -3600 ∧ ¬ (0 : Int) ≤ _to_timedelta (.td (-3600)) := by
  decide

/-- C6 amended: the duration normalizer returns a native duration value
unchanged (it is not clamped, so negative native durations survive);
absent, NaN and unparsable inputs normalize to the zero duration; and every
digits-only string normalizes to a non-negative duration. (Colon-form
strings with a negative hour component can still produce a negative
duration.) -/
theorem C6_duration_normalizer_amended :
    (∀ sec : Int, _to_timedelta (.td sec) = sec) ∧
    _to_timedelta .absent = 0 ∧
    _to_timedelta .nanVal = 0 ∧
    (∀ s : String, (replaceSep (pyStrip s.data)).contains ':' = false →
      pyIsDigit (replaceSep (pyStrip s.data)) = false →
      _to_timedelta (.str s) = 0) ∧
    (∀ s : String, pyIsDigit (pyStrip s.data) = true → 0 ≤ _to_timedelta (.str s)) := by
  refine ⟨fun _ => rfl, rfl, rfl, ?_, ?_⟩
  · intro s hc hd
    simp only [_to_timedelta, toTimedeltaStr]
    split
    · rfl
    · rw [hc, hd]
      simp
  · intro s hdig
    obtain ⟨hne, hd⟩ := pyIsDigit_iff.mp hdig
    have hd0 : ∀ c ∈ pyStrip s.data, c.isDigit = true := hd
    have hE : (pyStrip s.data).isEmpty = false := by simpa [List.isEmpty_iff] using hne
    simp only [_to_timedelta, toTimedeltaStr, hE, Bool.false_eq_true, if_false,
      replaceSep_digits hd0, contains_colon_of_digits hd0, hdig, if_true]
    by_cases h4 : (pyStrip s.data).length = 4
    · have htake := pyIsDigit_take hd0 2 (by omega) (by omega)
      have hdrop := pyIsDigit_drop hd0 2 (by omega)
      rw [if_pos h4]
      simp only [pyInt_digits htake, pyInt_digits hdrop]
      omega
    · rw [if_neg h4]
      by_cases h3 : (pyStrip s.data).length = 3
      · have htake := pyIsDigit_take hd0 1 (by omega) (by omega)
        have hdrop := pyIsDigit_drop hd0 1 (by omega)
        rw [if_pos h3]
        simp only [pyInt_digits htake, pyInt_digits hdrop]
        omega
      · rw [if_neg h3]
        simp only [pyInt_digits hdig]
        omega

/-- C6 witness: the amended statement at concrete inputs — an unparsable
string normalizes to zero and the digit string "0130" to a non-negative
duration. -/
theorem C6_witness :
    _to_timedelta (.str "xyz") = 0 ∧ 0 ≤ _to_timedelta (.str "0130") :=
  ⟨C6_duration_normalizer_amended.2.2.2.1 "xyz" (by decide) (by decide),
   C6_duration_normalizer_amended.2.2.2.2 "0130" (by decide)⟩

/-- C4: row evaluation returns an error result exactly when the date, start
or end normalizes to absent; every raw row is still evaluated (one output
per input), and error rows contribute zero to every aggregate total (their
numeric columns are absent, so dropping them leaves all sums unchanged). -/
theorem C4_error_iff_missing (cal : HolidayCal) (ru : Rules) :
    (∀ dv sv ev mv wv,
      (compute_row cal dv sv ev mv wv ru).isErr =
        ((_to_date dv).isNone || (_to_time sv).isNone || (_to_time ev).isNone)) ∧
    (∀ rows : List RawRow, (out_rows cal ru rows).length = rows.length) ∧
    (∀ rows : List RawRow,
      totals (out_rows cal ru rows) =
        totals (out_rows cal ru (rows.filter fun r =>
          !(compute_row cal r.dato r.start r.slutt r.spisetid r.ventetid ru).isErr))) := by
  refine ⟨?_, ?_, ?_⟩
  · intro dv sv ev mv wv
    cases hd : _to_date dv <;> cases hs : _to_time sv <;> cases he : _to_time ev <;>
      simp [compute_row, RowOut.isErr, hd, hs, he]
  · intro rows
    simp [out_rows]
  · intro rows
    induction rows with
    | nil => rfl
    | cons r rs ih =>
      simp only [out_rows, List.map_cons, List.filter_cons] at ih ⊢
      cases hcr : compute_row cal r.dato r.start r.slutt r.spisetid r.ventetid ru with
      | error msg => simpa [totals, RowOut.isErr, hcr] using ih
      | ok v => simpa [totals, RowOut.isErr, hcr] using congrArg (addRes v) ih

/-- C8: row evaluation is total over the whole modelled input space: it
returns either the typed error result or a complete row result in which the
meal and wait fields are whatever the (never-failing) duration normalizer
produced, and the meal/wait inputs can never turn a row into an error. -/
theorem C8_row_evaluation_total (cal : HolidayCal) (dv : DateField) (sv ev : TimeField)
    (mv wv : TdField) (ru : Rules) :
    ((∃ msg, compute_row cal dv sv ev mv wv ru = .error msg) ∨
      (∃ r, compute_row cal dv sv ev mv wv ru = .ok r ∧
        r.meal = _to_timedelta mv ∧ r.wait = _to_timedelta wv)) ∧
    (compute_row cal dv sv ev mv wv ru).isErr =
      (compute_row cal dv sv ev .absent .absent ru).isErr := by
  constructor
  · cases hd : _to_date dv <;> cases hs : _to_time sv <;> cases he : _to_time ev <;>
      simp only [compute_row, hd, hs, he]
    all_goals
      first
      | exact Or.inl ⟨_, rfl⟩
      | (refine Or.inr ⟨_, rfl, ?_, ?_⟩ <;> rfl)
  · cases hd : _to_date dv <;> cases hs : _to_time sv <;> cases he : _to_time ev <;>
      simp only [compute_row, hd, hs, he]
    all_goals rfl

/-- C7 counterexample: a well-formed HH:MM:SS string is rejected by the
clock-time normalizer (the two-variable unpack of the colon-split raises
and is caught), contradicting the claimed acceptance. -/
theorem C7_counterexample : _to_time (.str "07:30:15") = none := by decide

/-- Character for one decimal digit. -/
def digitChar : Nat → Char
  | 0 => '0' | 1 => '1' | 2 => '2' | 3 => '3' | 4 => '4'
  | 5 => '5' | 6 => '6' | 7 => '7' | 8 => '8' | _ => '9'

/-- Two-digit zero-padded decimal rendering. -/
def twoDigits (n : Nat) : List Char := [digitChar (n / 10), digitChar (n % 10)]

/-- A clock string "HH(sep)MM". -/
def strHM (sep : Char) (h m : Nat) : String := ⟨twoDigits h ++ sep :: twoDigits m⟩

/-- A clock string "HHMM". -/
def strHHMM (h m : Nat) : String := ⟨twoDigits h ++ twoDigits m⟩

/-- A clock string "HMM" with single-digit hour. -/
def strHMM (h m : Nat) : String := ⟨digitChar h :: twoDigits m⟩

/-- A clock string "HH" (hour only). -/
def strHH (h : Nat) : String := ⟨twoDigits h⟩

/-- A clock string "H" (single-digit hour only). -/
def strH (h : Nat) : String := ⟨[digitChar h]⟩

/-- A clock string "HH:MM:SS". -/
def strHMS (h m sec : Nat) : String :=
  ⟨twoDigits h ++ (':' :: (twoDigits m ++ (':' :: twoDigits sec)))⟩

theorem digitChar_isDigit (n : Nat) : (digitChar n).isDigit = true := by
  unfold digitChar
  split <;> decide

theorem digitChar_toNat (n : Nat) (h : n ≤ 9) : (digitChar n).toNat = 48 + n := by
  interval_cases n <;> decide

theorem twoDigits_digits (n : Nat) : ∀ c ∈ twoDigits n, c.isDigit = true := by
  intro c hc
  simp only [twoDigits, List.mem_cons, List.not_mem_nil, or_false] at hc
  rcases hc with rfl | rfl <;> exact digitChar_isDigit _

theorem twoDigits_ne_nil (n : Nat) : twoDigits n ≠ [] := by simp [twoDigits]

theorem singleDigit_digits (n : Nat) : ∀ c ∈ [digitChar n], c.isDigit = true := by
  intro c hcm
  rcases List.mem_cons.mp hcm with rfl | hcm
  · exact digitChar_isDigit n
  · exact absurd hcm (List.not_mem_nil c)

theorem pyIsDigit_single (n : Nat) : pyIsDigit [digitChar n] = true :=
  pyIsDigit_iff.mpr ⟨by simp, singleDigit_digits n⟩

theorem pyIsDigit_twoDigits (n : Nat) : pyIsDigit (twoDigits n) = true :=
  pyIsDigit_iff.mpr ⟨twoDigits_ne_nil n, twoDigits_digits n⟩

theorem digitsVal_twoDigits (n : Nat) (h : n ≤ 99) : digitsVal (twoDigits n) = n := by
  simp only [twoDigits, digitsVal, List.foldl_cons, List.foldl_nil]
  rw [digitChar_toNat _ (by omega), digitChar_toNat _ (by omega)]
  omega

theorem digitsVal_single (n : Nat) (h : n ≤ 9) : digitsVal [digitChar n] = n := by
  simp only [digitsVal, List.foldl_cons, List.foldl_nil]
  rw [digitChar_toNat _ h]
  omega

theorem pyStrip_no_ws {s : List Char} (h : ∀ c ∈ s, c.isWhitespace = false) :
    pyStrip s = s := by
  have h1 : ∀ l : List Char, (∀ c ∈ l, c.isWhitespace = false) →
      l.dropWhile Char.isWhitespace = l := by
    intro l hl
    cases l with
    | nil => rfl
    | cons c cs =>
      rw [List.dropWhile_cons, hl c (List.mem_cons_self c cs)]
      simp
  unfold pyStrip
  rw [h1 s h, h1 s.reverse (fun c hc => h c (List.mem_reverse.mp hc)), List.reverse_reverse]

theorem replaceSep_append_sep (a b : List Char) (sep : Char)
    (ha : ∀ c ∈ a, c.isDigit = true) (hsep : sep = ':' ∨ sep = '.' ∨ sep = ',') :
    replaceSep (a ++ sep :: b) = a ++ ':' :: replaceSep b := by
  unfold replaceSep
  rw [List.map_append, List.map_cons]
  have h1 : List.map (fun c => if c = '.' then ':' else if c = ',' then ':' else c) a = a :=
    replaceSep_digits ha
  rw [h1]
  rcases hsep with rfl | rfl | rfl <;> rfl

theorem contains_append_colon (a b : List Char) : (a ++ ':' :: b).contains ':' = true := by
  induction a with
  | nil => simp [List.contains_cons]
  | cons c cs ih => simp [List.contains_cons, ih]

theorem splitOnP_go_no_hit (P : Char → Bool) :
    ∀ (a rest acc : List Char), (∀ c ∈ a, P c = false) →
      List.splitOnP.go P (a ++ rest) acc = List.splitOnP.go P rest (a.reverse ++ acc) := by
  intro a
  induction a with
  | nil =>
    intro rest acc _
    simp
  | cons c cs ih =>
    intro rest acc h
    have hc := h c (List.mem_cons_self c cs)
    simp only [List.cons_append, List.splitOnP.go, hc, Bool.false_eq_true, if_false,
      List.append_eq]
    rw [ih rest (c :: acc) (fun d hd => h d (List.mem_cons_of_mem c hd))]
    simp

theorem splitOnP_go_all (P : Char → Bool) :
    ∀ (b acc : List Char), (∀ c ∈ b, P c = false) →
      List.splitOnP.go P b acc = [acc.reverse ++ b] := by
  intro b
  induction b with
  | nil =>
    intro acc _
    simp [List.splitOnP.go]
  | cons c cs ih =>
    intro acc h
    have hc := h c (List.mem_cons_self c cs)
    simp only [List.splitOnP.go, hc, Bool.false_eq_true, if_false]
    rw [ih (c :: acc) (fun d hd => h d (List.mem_cons_of_mem c hd))]
    simp

theorem beq_colon_false_of_digits {l : List Char} (h : ∀ c ∈ l, c.isDigit = true) :
    ∀ c ∈ l, (c == ':') = false :=
  fun c hc => beq_eq_false_iff_ne.mpr (ne_colon_of_isDigit (h c hc))

theorem splitOn_two_parts (a b : List Char)
    (ha : ∀ c ∈ a, (c == ':') = false) (hb : ∀ c ∈ b, (c == ':') = false) :
    (a ++ ':' :: b).splitOn ':' = [a, b] := by
  unfold List.splitOn List.splitOnP
  rw [splitOnP_go_no_hit _ a (':' :: b) [] ha]
  simp only [List.splitOnP.go, beq_self_eq_true, if_true]
  rw [splitOnP_go_all _ b [] hb]
  simp

theorem splitOn_three_parts (a b c : List Char)
    (ha : ∀ x ∈ a, (x == ':') = false) (hb : ∀ x ∈ b, (x == ':') = false)
    (hc : ∀ x ∈ c, (x == ':') = false) :
    (a ++ (':' :: (b ++ (':' :: c)))).splitOn ':' = [a, b, c] := by
  unfold List.splitOn List.splitOnP
  rw [splitOnP_go_no_hit _ a (':' :: (b ++ (':' :: c))) [] ha]
  simp only [List.splitOnP.go, beq_self_eq_true, if_true]
  rw [splitOnP_go_no_hit _ b (':' :: c) [] hb]
  simp only [List.splitOnP.go, beq_self_eq_true, if_true]
  rw [splitOnP_go_all _ c [] hc]
  simp

/-- The colon branch of the clock-time parser on a digits-sep-digits string:
it reduces to the validated Python time constructor. -/
theorem toTimeStr_sep_form (a b : List Char) (sep : Char)
    (ha : ∀ c ∈ a, c.isDigit = true) (hb : ∀ c ∈ b, c.isDigit = true)
    (ha0 : a ≠ []) (hb0 : b ≠ []) (hsep : sep = ':' ∨ sep = '.' ∨ sep = ',') :
    toTimeStr (a ++ sep :: b) =
      mkTime ((digitsVal a : Nat) : Int) ((digitsVal b : Nat) : Int) := by
  have hnws : ∀ c ∈ a ++ sep :: b, c.isWhitespace = false := by
    intro c hcm
    rcases List.mem_append.mp hcm with hcm | hcm
    · exact not_ws_of_isDigit (ha c hcm)
    · rcases List.mem_cons.mp hcm with rfl | hcm
      · rcases hsep with rfl | rfl | rfl <;> decide
      · exact not_ws_of_isDigit (hb c hcm)
  have hE : (a ++ sep :: b).isEmpty = false := by
    cases a <;> simp [List.isEmpty]
  have hrep : replaceSep (a ++ sep :: b) = a ++ ':' :: b := by
    rw [replaceSep_append_sep a b sep ha hsep]
    have hbrep : replaceSep b = b := replaceSep_digits hb
    rw [hbrep]
  have hsplit : (a ++ ':' :: b).splitOn ':' = [a, b] :=
    splitOn_two_parts a b (beq_colon_false_of_digits ha) (beq_colon_false_of_digits hb)
  have hia : pyIsDigit a = true := pyIsDigit_iff.mpr ⟨ha0, ha⟩
  have hib : pyIsDigit b = true := pyIsDigit_iff.mpr ⟨hb0, hb⟩
  simp only [toTimeStr, pyStrip_no_ws hnws, hE, Bool.false_eq_true, if_false, hrep,
    contains_append_colon, if_true, hsplit, pyInt_digits hia, pyInt_digits hib]

/-- The clock-time parser rejects every string with two colon separators. -/
theorem toTimeStr_three_parts (a b c : List Char)
    (ha : ∀ x ∈ a, x.isDigit = true) (hb : ∀ x ∈ b, x.isDigit = true)
    (hc : ∀ x ∈ c, x.isDigit = true) :
    toTimeStr (a ++ (':' :: (b ++ (':' :: c)))) = none := by
  have hnws : ∀ x ∈ a ++ (':' :: (b ++ (':' :: c))), x.isWhitespace = false := by
    intro x hxm
    rcases List.mem_append.mp hxm with hxm | hxm
    · exact not_ws_of_isDigit (ha x hxm)
    · rcases List.mem_cons.mp hxm with rfl | hxm
      · decide
      · rcases List.mem_append.mp hxm with hxm | hxm
        · exact not_ws_of_isDigit (hb x hxm)
        · rcases List.mem_cons.mp hxm with rfl | hxm
          · decide
          · exact not_ws_of_isDigit (hc x hxm)
  have hE : (a ++ (':' :: (b ++ (':' :: c)))).isEmpty = false := by
    cases a <;> simp [List.isEmpty]
  have hrep : replaceSep (a ++ (':' :: (b ++ (':' :: c))))
      = a ++ (':' :: (b ++ (':' :: c))) := by
    rw [replaceSep_append_sep a _ ':' ha (Or.inl rfl),
        replaceSep_append_sep b _ ':' hb (Or.inl rfl)]
    have hcrep : replaceSep c = c := replaceSep_digits hc
    rw [hcrep]
  have hsplit : (a ++ (':' :: (b ++ (':' :: c)))).splitOn ':' = [a, b, c] :=
    splitOn_three_parts a b c (beq_colon_false_of_digits ha)
      (beq_colon_false_of_digits hb) (beq_colon_false_of_digits hc)
  simp only [toTimeStr, pyStrip_no_ws hnws, hE, Bool.false_eq_true, if_false, hrep,
    contains_append_colon, if_true, hsplit]

/-- C7 amended: the clock-time normalizer accepts every string in the forms
HH:MM, HHMM, HMM and H / HH (hour only, minutes 0), with '.' and ','
synonyms for ':' — but an HH:MM:SS string does not parse: the source splits
on ':' and unpacks exactly two fields, so every two-colon string normalizes
to absent. -/
theorem C7_time_formats_amended :
    (∀ h m : Nat, h ≤ 23 → m ≤ 59 → ∀ sep : Char, sep = ':' ∨ sep = '.' ∨ sep = ',' →
      _to_time (.str (strHM sep h m)) = some ⟨h, m⟩) ∧
    (∀ h m : Nat, h ≤ 23 → m ≤ 59 → _to_time (.str (strHHMM h m)) = some ⟨h, m⟩) ∧
    (∀ h m : Nat, h ≤ 9 → m ≤ 59 → _to_time (.str (strHMM h m)) = some ⟨h, m⟩) ∧
    (∀ h : Nat, h ≤ 23 → _to_time (.str (strHH h)) = some ⟨h, 0⟩) ∧
    (∀ h : Nat, h ≤ 9 → _to_time (.str (strH h)) = some ⟨h, 0⟩) ∧
    (∀ h m sec : Nat, _to_time (.str (strHMS h m sec)) = none) := by
  refine ⟨?_, ?_, ?_, ?_, ?_, ?_⟩
  · intro h m hh hm sep hsep
    show toTimeStr (twoDigits h ++ sep :: twoDigits m) = some ⟨h, m⟩
    rw [toTimeStr_sep_form _ _ sep (twoDigits_digits h) (twoDigits_digits m)
          (twoDigits_ne_nil h) (twoDigits_ne_nil m) hsep,
        digitsVal_twoDigits h (by omega), digitsVal_twoDigits m (by omega)]
    unfold mkTime
    rw [if_pos (by omega)]
    simp
  · intro h m hh hm
    have hd : ∀ c ∈ (strHHMM h m).data, c.isDigit = true := by
      intro c hcm
      rcases List.mem_append.mp hcm with hcm | hcm
      · exact twoDigits_digits h c hcm
      · exact twoDigits_digits m c hcm
    have hdig : pyIsDigit (strHHMM h m).data = true :=
      pyIsDigit_iff.mpr ⟨by simp [strHHMM, twoDigits], hd⟩
    have hE : (strHHMM h m).data.isEmpty = false := by simp [strHHMM, twoDigits]
    have hlen : (strHHMM h m).data.length = 4 := by simp [strHHMM, twoDigits]
    have htake : (strHHMM h m).data.take 2 = twoDigits h := by
      simp [strHHMM, twoDigits]
    have hdrop : (strHHMM h m).data.drop 2 = twoDigits m := by
      simp [strHHMM, twoDigits]
    have pha : pyIsDigit (twoDigits h) = true :=
      pyIsDigit_iff.mpr ⟨twoDigits_ne_nil h, twoDigits_digits h⟩
    have phb : pyIsDigit (twoDigits m) = true :=
      pyIsDigit_iff.mpr ⟨twoDigits_ne_nil m, twoDigits_digits m⟩
    simp only [_to_time, toTimeStr, pyStrip_digits hd, hE, Bool.false_eq_true, if_false,
      replaceSep_digits hd, contains_colon_of_digits hd, hdig, if_true, htake, hdrop,
      pyInt_digits pha, pyInt_digits phb,
      digitsVal_twoDigits h (by omega), digitsVal_twoDigits m (by omega)]
    rw [if_pos hlen, if_pos (by omega)]
    simp
  · intro h m hh hm
    have hd : ∀ c ∈ (strHMM h m).data, c.isDigit = true := by
      intro c hcm
      rcases List.mem_cons.mp hcm with rfl | hcm
      · exact digitChar_isDigit h
      · exact twoDigits_digits m c hcm
    have hdig : pyIsDigit (strHMM h m).data = true :=
      pyIsDigit_iff.mpr ⟨by simp [strHMM, twoDigits], hd⟩
    have hE : (strHMM h m).data.isEmpty = false := by simp [strHMM, twoDigits]
    have hlen : (strHMM h m).data.length = 3 := by simp [strHMM, twoDigits]
    have hn4 : ¬ (strHMM h m).data.length = 4 := by omega
    have htake : (strHMM h m).data.take 1 = [digitChar h] := by
      simp [strHMM, twoDigits]
    have hdrop : (strHMM h m).data.drop 1 = twoDigits m := by
      simp [strHMM, twoDigits]
    have pha : pyIsDigit [digitChar h] = true := pyIsDigit_single h
    have phb : pyIsDigit (twoDigits m) = true := pyIsDigit_twoDigits m
    simp only [_to_time, toTimeStr, pyStrip_digits hd, hE, Bool.false_eq_true, if_false,
      replaceSep_digits hd, contains_colon_of_digits hd, hdig, if_true, htake, hdrop,
      pyInt_digits pha, pyInt_digits phb,
      digitsVal_single h (by omega), digitsVal_twoDigits m (by omega)]
    rw [if_neg hn4, if_pos hlen, if_pos (by omega)]
    simp
  · intro h hh
    have hd : ∀ c ∈ (strHH h).data, c.isDigit = true := twoDigits_digits h
    have hdig : pyIsDigit (strHH h).data = true :=
      pyIsDigit_iff.mpr ⟨by simp [strHH, twoDigits], hd⟩
    have hE : (strHH h).data.isEmpty = false := by simp [strHH, twoDigits]
    have hlen : (strHH h).data.length = 2 := by simp [strHH, twoDigits]
    have hn4 : ¬ (strHH h).data.length = 4 := by omega
    have hn3 : ¬ (strHH h).data.length = 3 := by omega
    have hle2 : (strHH h).data.length ≤ 2 := by omega
    simp only [_to_time, toTimeStr, pyStrip_digits hd, hE, Bool.false_eq_true, if_false,
      replaceSep_digits hd, contains_colon_of_digits hd, hdig, if_true,
      pyInt_digits hdig]
    rw [if_neg hn4, if_neg hn3, if_pos hle2]
    have hv : digitsVal (strHH h).data = h := digitsVal_twoDigits h (by omega)
    rw [hv, if_pos (by omega)]
    simp
  · intro h hh
    have hd : ∀ c ∈ (strH h).data, c.isDigit = true := by
      intro c hcm
      rcases List.mem_cons.mp hcm with rfl | hcm
      · exact digitChar_isDigit h
      · exact absurd hcm (List.not_mem_nil c)
    have hdig : pyIsDigit (strH h).data = true :=
      pyIsDigit_iff.mpr ⟨by simp [strH], hd⟩
    have hE : (strH h).data.isEmpty = false := by simp [strH]
    have hlen : (strH h).data.length = 1 := by simp [strH]
    have hn4 : ¬ (strH h).data.length = 4 := by omega
    have hn3 : ¬ (strH h).data.length = 3 := by omega
    have hle2 : (strH h).data.length ≤ 2 := by omega
    simp only [_to_time, toTimeStr, pyStrip_digits hd, hE, Bool.false_eq_true, if_false,
      replaceSep_digits hd, contains_colon_of_digits hd, hdig, if_true,
      pyInt_digits hdig]
    rw [if_neg hn4, if_neg hn3, if_pos hle2]
    have hv : digitsVal (strH h).data = h := digitsVal_single h (by omega)
    rw [hv, if_pos (by omega)]
    simp
  · intro h m sec
    show toTimeStr (twoDigits h ++ (':' :: (twoDigits m ++ (':' :: twoDigits sec)))) = none
    exact toTimeStr_three_parts _ _ _ (twoDigits_digits h) (twoDigits_digits m)
      (twoDigits_digits sec)

/-- C7 witness: the amended statement instantiated at 07:30 for every
accepted form and at 07:30:15 for the rejected three-part form. -/
theorem C7_witness :
    _to_time (.str (strHM ':' 7 30)) = some ⟨7, 30⟩ ∧
    _to_time (.str (strHM '.' 7 30)) = some ⟨7, 30⟩ ∧
    _to_time (.str (strHHMM 7 30)) = some ⟨7, 30⟩ ∧
    _to_time (.str (strHMM 7 30)) = some ⟨7, 30⟩ ∧
    _to_time (.str (strHH 7)) = some ⟨7, 0⟩ ∧
    _to_time (.str (strH 7)) = some ⟨7, 0⟩ ∧
    _to_time (.str (strHMS 7 30 15)) = none :=
  ⟨C7_time_formats_amended.1 7 30 (by omega) (by omega) ':' (Or.inl rfl),
   C7_time_formats_amended.1 7 30 (by omega) (by omega) '.' (Or.inr (Or.inl rfl)),
   C7_time_formats_amended.2.1 7 30 (by omega) (by omega),
   C7_time_formats_amended.2.2.1 7 30 (by omega) (by omega),
   C7_time_formats_amended.2.2.2.1 7 (by omega),
   C7_time_formats_amended.2.2.2.2.1 7 (by omega),
   C7_time_formats_amended.2.2.2.2.2 7 30 15⟩

end Kran

